import Mathlib

/-!
Verification development for the gorilla deployment agent.

The development shallowly embeds the two source files of the repository:

* the `download` package (`SetConfig`, `File`, `Get`, `Verify`, `IfNeeded`),
  modelled as pure functions over an explicit filesystem (`FS`) and an oracle
  structure (`World`) that supplies the outcomes of every external effect
  (TLS material loading, HTTP requests, file creation/reading/writing, and
  the SHA-256 digest function);
* the orchestration in `cmd/gorilla/main.go`, modelled as pure list
  computations over a catalog and a list of manifests, producing the ordered
  trace of installer invocations.

Every function keeps the branching structure of the Go source.  Calls to
`gorillalog` only log and never influence results, so they are not modelled.
Machine-level details that no claim depends on (timeouts, keep-alive
settings, file modes other than the 0o755 recorded in the trace) live inside
the oracles or are noted in comments.
-/

namespace Gorilla

/-! ## Go path-library ports

`filepathClean` ports Go `path/filepath.Clean` for Unix paths (identical to
`path.Clean`), `filepathJoin` ports the two-element `filepath.Join`,
`pathSplitFile` is the second component of `path.Split`, and
`filepathSplitDir` the first component of `filepath.Split`. -/

/-- Backtracking step inside the `..` case of Go `Clean`:
starting after the first `out.w--`, keep dropping characters while
`out.w > dotdot` and the character at the new write index is not `'/'`.
`out` is kept in reverse order (head = most recently written character),
and `c` is the character at the current write index (the one most recently
excluded). -/
def backtrackLoop (dotdot : Nat) : List Char → Char → List Char
  | [], _ => []
  | c1 :: rest, c =>
    if (c1 :: rest).length > dotdot ∧ c ≠ '/' then backtrackLoop dotdot rest c1
    else c1 :: rest

/-- The `..` path-element case of Go `Clean`: backtrack when possible,
otherwise (when not rooted) append a literal `..` element and advance the
`dotdot` guard. Returns the new reversed output buffer and `dotdot`. -/
def dotdotStep (rooted : Bool) (out : List Char) (dotdot : Nat) : List Char × Nat :=
  if out.length > dotdot then
    match out with
    | [] => ([], dotdot)
    | c0 :: rest => (backtrackLoop dotdot rest c0, dotdot)
  else if !rooted then
    let out1 := if out.length > 0 then '/' :: out else out
    let out2 := '.' :: '.' :: out1
    (out2, out2.length)
  else (out, dotdot)

/-- Copy one path element (up to the next `'/'` or the end of the input)
onto the reversed output buffer; returns the new buffer and the remaining
input. -/
def copyName : List Char → List Char → List Char × List Char
  | [], out => (out, [])
  | c :: rest, out =>
    if c = '/' then (out, c :: rest) else copyName rest (c :: out)

/-- Separator inserted before a copied path element, mirroring
`if rooted && out.w != 1 || !rooted && out.w != 0 { out.append('/') }`. -/
def nameSep (rooted : Bool) (out : List Char) : List Char :=
  if (rooted ∧ out.length ≠ 1) ∨ (!rooted ∧ out.length ≠ 0) then '/' :: out else out

/-- Main loop of Go `Clean`.  The input is consumed left to right; `out` is
the reversed output buffer and `dotdot` the index before which `..`
backtracking must stop.  `fuel` dominates the input length, and every
recursive call consumes at least one input character, so `fuel = length + 1`
is always sufficient. -/
def cleanLoop (rooted : Bool) : Nat → List Char → List Char → Nat → List Char
  | 0, _, out, _ => out
  | _ + 1, [], out, _ => out
  | fuel + 1, '/' :: rest, out, dotdot => cleanLoop rooted fuel rest out dotdot
  | fuel + 1, '.' :: rest, out, dotdot =>
    match rest with
    | [] => out
    | '/' :: rest1 => cleanLoop rooted fuel rest1 out dotdot
    | '.' :: rest1 =>
      match rest1 with
      | [] => (dotdotStep rooted out dotdot).1
      | '/' :: rest2 =>
        let s := dotdotStep rooted out dotdot
        cleanLoop rooted fuel rest2 s.1 s.2
      | c :: rest2 =>
        let p := copyName ('.' :: '.' :: c :: rest2) (nameSep rooted out)
        cleanLoop rooted fuel p.2 p.1 dotdot
    | c :: rest1 =>
      let p := copyName ('.' :: c :: rest1) (nameSep rooted out)
      cleanLoop rooted fuel p.2 p.1 dotdot
  | fuel + 1, c :: rest, out, dotdot =>
    let p := copyName (c :: rest) (nameSep rooted out)
    cleanLoop rooted fuel p.2 p.1 dotdot

/-- Port of Go `path/filepath.Clean` on Unix paths. -/
def filepathClean (p : String) : String :=
  match p.data with
  | [] => "."
  | c :: rest =>
    let rooted := c = '/'
    let res :=
      if rooted then cleanLoop true (p.data.length + 1) rest ['/'] 1
      else cleanLoop false (p.data.length + 1) (c :: rest) [] 0
    if res.length = 0 then "." else String.mk res.reverse

/-- Port of the two-argument Go `filepath.Join`: non-empty elements joined
with `/`, then cleaned; all-empty input gives the empty string. -/
def filepathJoin (a b : String) : String :=
  if a = "" ∧ b = "" then ""
  else if a = "" then filepathClean b
  else if b = "" then filepathClean a
  else filepathClean (a ++ "/" ++ b)

/-- Second component of Go `path.Split`: everything after the last `'/'`
(the whole string when it has no `'/'`). -/
def pathSplitFile (p : String) : String :=
  String.mk ((p.data.reverse.takeWhile (fun c => c ≠ '/')).reverse)

/-- First component of Go `filepath.Split`: everything up to and including
the last `'/'`. -/
def filepathSplitDir (p : String) : String :=
  String.mk ((p.data.reverse.dropWhile (fun c => c ≠ '/')).reverse)

/-! ## Hex encoding and ASCII lowering -/

/-- Lower-case hex digit for a nibble, as in Go `encoding/hex`
(`hextable = "0123456789abcdef"`). -/
def hexDigitChar (n : Nat) : Char :=
  if n < 10 then Char.ofNat (48 + n) else Char.ofNat (87 + n)

/-- Port of Go `hex.EncodeToString`: two lower-case hex digits per byte.
Bytes are `Nat`s reduced mod 256, as Go's `byte` is an 8-bit integer. -/
def hexEncodeBytes (bs : List Nat) : List Char :=
  bs.flatMap (fun b => [hexDigitChar (b % 256 / 16), hexDigitChar (b % 256 % 16)])

/-- `hex.EncodeToString` as a `String`. -/
def hexEncodeToString (bs : List Nat) : String :=
  String.mk (hexEncodeBytes bs)

/-- ASCII lowering of one character.  Go `strings.ToLower` also lowers
non-ASCII letters, but those can never compare equal to the `[0-9a-f]`
output of `hexEncodeToString`, so the difference cannot influence `Verify`. -/
def asciiCharToLower (c : Char) : Char :=
  if 'A' ≤ c ∧ c ≤ 'Z' then Char.ofNat (c.toNat + 32) else c

/-- ASCII port of Go `strings.ToLower`. -/
def asciiToLower (s : String) : String :=
  String.mk (s.data.map asciiCharToLower)

/-! ## Data model of the `download` package -/

/-- The fields of `config.Configuration` that the `download` package reads
(the package-level `downloadCfg` installed by `SetConfig`).  Every function
below takes it as an explicit first argument. -/
structure Configuration where
  TLSAuth : Bool
  TLSClientCert : String
  TLSClientKey : String
  TLSServerCert : String
  SASToken : String
  AuthUser : String
  AuthPass : String
deriving DecidableEq, Repr

/-- Go `error` values occurring in the embedded code.  `statusCode` is the
`fmt.Errorf("%s : Download status code: %d", url, resp.StatusCode)` value
built by `Get`; `msg` stands for any error produced by the environment. -/
inductive GoError where
  | msg (s : String)
  | statusCode (url : String) (code : Nat)
deriving DecidableEq, Repr

/-- Result of a Go call: a value, a Go `error`, or a runtime panic
(a nil-pointer dereference propagates to every caller, none of the embedded
functions recovers). -/
inductive GoOutcome (α : Type) where
  | ok : α → GoOutcome α
  | err : GoError → GoOutcome α
  | panic : GoOutcome α
deriving DecidableEq, Repr

/-- An HTTP response as `Get` observes it: the status code and the outcome
of reading the body stream to its end (`ioutil.ReadAll` can fail after the
headers arrived). -/
structure HttpResponse where
  statusCode : Nat
  bodyRead : Except GoError (List Nat)

/-- Observable events, in execution order.  `fileCall`/`getCall` mark entry
into `File`/`Get` (a fetch attempt); `httpDo` is the actual network I/O
performed by `client.Do`; the rest are filesystem operations of `File`.
`mkdirAll` records the permission bits passed (0o755) and the error result,
which the code only logs. -/
inductive Event where
  | fileCall (dir url : String)
  | mkdirAll (dir : String) (perm : Nat) (result : Option GoError)
  | createFile (path : String)
  | getCall (url : String)
  | httpDo (url : String)
  | fileWrite (path : String)
deriving DecidableEq, Repr

/-- The local filesystem: paths with their byte contents.  Later entries are
shadowed by earlier ones (`fsSet` prepends). -/
abbrev FS : Type := List (String × List Nat)

/-- Content of the file at `p`, `none` when no file exists there. -/
def fsLookup : FS → String → Option (List Nat)
  | [], _ => none
  | (q, v) :: rest, p => if q = p then some v else fsLookup rest p

/-- Write (create or truncate-and-replace) the file at `p`. -/
def fsSet (fs : FS) (p : String) (v : List Nat) : FS :=
  (p, v) :: fs

/-- `os.Stat(p)` succeeds exactly when a file exists at `p`. -/
def statOk (fs : FS) (p : String) : Bool :=
  (fsLookup fs p).isSome

/-- Oracles for every external effect of the `download` package.  Each field
is a fixed function, so one `World` value describes one deterministic
environment:

* `loadX509KeyPair` — `tls.LoadX509KeyPair` on the client cert/key paths
  (fails when either file is unreadable or unparseable);
* `readFile` — `ioutil.ReadFile` on the server CA bundle path;
* `appendCertsFromPEM` — whether `x509.CertPool.AppendCertsFromPEM` parses
  any certificate out of the given bytes (the code discards this Boolean);
* `newRequest` — whether `http.NewRequest("GET", url, nil)` succeeds;
* `httpDo` — `client.Do` on a well-formed request: the response for a URL
  and optional basic-auth credentials, or a transport error.  Transport
  construction details (timeouts, the `file://` handler registered when TLS
  auth is off, the TLS context when it is on) live inside this oracle;
* `osCreate` — error of `os.Create(path)`, `none` on success;
* `writeResult` — error of `f.Write(body)`: `none` means everything was
  written; `some (e, n)` means the write failed after `n` bytes;
* `openErr`/`readErr` — `os.Open` failing on an existing file, and
  `io.Copy` failing while streaming it;
* `sha256` — the SHA-256 digest (32 bytes) of a byte sequence. -/
structure World where
  loadX509KeyPair : String → String → Except GoError Unit
  readFile : String → Except GoError (List Nat)
  appendCertsFromPEM : List Nat → Bool
  newRequest : String → Except GoError Unit
  httpDo : String → Option (String × String) → Except GoError HttpResponse
  mkdirAll : String → Option GoError
  osCreate : String → Option GoError
  writeResult : String → List Nat → Option (GoError × Nat)
  openErr : String → Bool
  readErr : String → Bool
  sha256 : List Nat → List Nat

/-- Result of running one of the effectful functions: the Go return value,
the filesystem afterwards, and the trace of events. -/
structure Run (α : Type) where
  res : GoOutcome α
  fs : FS
  trace : List Event
deriving DecidableEq, Repr

/-! ## The `download` package -/

/-- The URL after `Get` appends the SAS token:
`if downloadCfg.SASToken != "" { url = url + "?" + downloadCfg.SASToken }`. -/
def urlWithToken (cfg : Configuration) (url : String) : String :=
  if cfg.SASToken ≠ "" then url ++ "?" ++ cfg.SASToken else url

/-- The basic-auth credentials `Get` attaches:
`if downloadCfg.AuthUser != "" && downloadCfg.AuthPass != ""`. -/
def basicAuth (cfg : Configuration) : Option (String × String) :=
  if cfg.AuthUser ≠ "" ∧ cfg.AuthPass ≠ "" then some (cfg.AuthUser, cfg.AuthPass) else none

/-- The TLS-auth client-construction phase of `Get`.  When `TLSAuth` is set:
load the client key pair (propagating its error), read the server CA bundle
(propagating its error), and feed the bundle to `AppendCertsFromPEM` —
whose Boolean result the Go code discards, so an unparseable bundle does
not stop the setup. -/
def tlsSetup (cfg : Configuration) (w : World) : Except GoError Unit :=
  if cfg.TLSAuth then
    match w.loadX509KeyPair cfg.TLSClientCert cfg.TLSClientKey with
    | .error e => .error e
    | .ok _ =>
      match w.readFile cfg.TLSServerCert with
      | .error e => .error e
      | .ok serverCert =>
        let _ := w.appendCertsFromPEM serverCert
        .ok ()
  else .ok ()

/-- The request phase of `Get`, after the client is built: append the SAS
token, build the request, attach basic auth, send, check for status 200,
read the body.  When `http.NewRequest` fails the code only logs a warning
and keeps the nil `*http.Request`: the very next use of it dereferences
the nil pointer and panics — `req.SetBasicAuth` when basic auth is
configured, and otherwise `client.Do`, which has no nil-request guard and
reads `req.URL` before doing anything else.  Either way the construction
error is never returned and no network I/O happens. -/
def getRequest (cfg : Configuration) (w : World) (url : String) :
    GoOutcome (List Nat) × List Event :=
  let url1 := urlWithToken cfg url
  match w.newRequest url1 with
  | .error _ => (.panic, [.getCall url])
  | .ok _ =>
    match w.httpDo url1 (basicAuth cfg) with
    | .error e => (.err e, [.getCall url, .httpDo url1])
    | .ok resp =>
      if resp.statusCode ≠ 200 then
        (.err (.statusCode url1 resp.statusCode), [.getCall url, .httpDo url1])
      else
        match resp.bodyRead with
        | .error e => (.err e, [.getCall url, .httpDo url1])
        | .ok body => (.ok body, [.getCall url, .httpDo url1])

/-- `Get(url) ([]byte, error)`: client construction, then the request. -/
def Get (cfg : Configuration) (w : World) (url : String) :
    GoOutcome (List Nat) × List Event :=
  match tlsSetup cfg w with
  | .error e => (.err e, [.getCall url])
  | .ok _ => getRequest cfg w url

/-- `File(file, url) error`: split the URL for the destination filename,
join it to the directory, `MkdirAll` the cleaned directory (error only
logged), `os.Create` the cleaned destination (error returned, nothing else
done), call `Get`, write the body.  A created file is never cleaned up on a
later failure: `Get` failure leaves the empty truncated file, a failed
write leaves the partially written prefix. -/
def File (cfg : Configuration) (w : World) (fs : FS) (file url : String) : Run Unit :=
  let fileName := pathSplitFile url
  let absPath := filepathJoin file fileName
  let dirClean := filepathClean file
  let pre : List Event := [.fileCall file url, .mkdirAll dirClean 0o755 (w.mkdirAll dirClean)]
  let target := filepathClean absPath
  match w.osCreate target with
  | some e => { res := .err e, fs := fs, trace := pre ++ [.createFile target] }
  | none =>
    let fs1 := fsSet fs target []
    match Get cfg w url with
    | (.ok body, ev) =>
      match w.writeResult target body with
      | none =>
        { res := .ok (), fs := fsSet fs1 target body
          trace := pre ++ [.createFile target] ++ ev ++ [.fileWrite target] }
      | some (e, n) =>
        { res := .err e, fs := fsSet fs1 target (body.take n)
          trace := pre ++ [.createFile target] ++ ev ++ [.fileWrite target] }
    | (.err e, ev) => { res := .err e, fs := fs1, trace := pre ++ [.createFile target] ++ ev }
    | (.panic, ev) => { res := .panic, fs := fs1, trace := pre ++ [.createFile target] ++ ev }

/-- `Verify(file, sha) bool`: open the file (any failure logged, `false`
returned), stream it through SHA-256 (I/O failure logged, `false`
returned), hex-encode, and compare against `strings.ToLower(sha)`.
The Boolean never carries an error. -/
def Verify (w : World) (fs : FS) (file sha : String) : Bool :=
  match fsLookup fs file with
  | none => false
  | some content =>
    if w.openErr file then false
    else if w.readErr file then false
    else
      let shaHash := hexEncodeToString (w.sha256 content)
      if shaHash ≠ asciiToLower sha then false
      else true

/-- `IfNeeded(absFile, url, hash) bool`: verify an existing file; when not
verified, fetch once via `File` on the containing directory (returning the
still-false `verified` when the fetch fails) and verify once more. -/
def IfNeeded (cfg : Configuration) (w : World) (fs : FS) (absFile url hash : String) :
    Run Bool :=
  let verified := if statOk fs absFile then Verify w fs absFile hash else false
  if verified then { res := .ok true, fs := fs, trace := [] }
  else
    let absPath := filepathSplitDir absFile
    let r := File cfg w fs absPath url
    match r.res with
    | .err _ => { res := .ok verified, fs := r.fs, trace := r.trace }
    | .panic => { res := .panic, fs := r.fs, trace := r.trace }
    | .ok _ => { res := .ok (Verify w r.fs absFile hash), fs := r.fs, trace := r.trace }

/-- Number of `fileCall` events (entries into `File`) in a trace. -/
def countFileCalls (tr : List Event) : Nat :=
  tr.countP (fun e => match e with | .fileCall _ _ => true | _ => false)

/-- Number of `getCall` events (entries into `Get`) in a trace. -/
def countGetCalls (tr : List Event) : Nat :=
  tr.countP (fun e => match e with | .getCall _ => true | _ => false)

/-- Number of `httpDo` events (actual network I/O) in a trace. -/
def countHttpDo (tr : List Event) : Nat :=
  tr.countP (fun e => match e with | .httpDo _ => true | _ => false)

/-! ## The orchestrator (`cmd/gorilla/main.go`) -/

/-- The catalog item fields the orchestration consumes
(`InstallerItemLocation`, `Dependencies`, and the expected hash). -/
structure ItemDescriptor where
  InstallerItemLocation : String
  Dependencies : List String
  Hash : String
deriving DecidableEq, Repr

/-- The Go zero value of the item struct, produced by indexing the catalog
map with an absent key. -/
def ItemDescriptor.zero : ItemDescriptor :=
  { InstallerItemLocation := "", Dependencies := [], Hash := "" }

/-- The catalog: a map from item name to its descriptor. -/
abbrev Catalog : Type := List (String × ItemDescriptor)

/-- Go map indexing `catalog[name]`: the stored descriptor, or the zero
value when the key is absent. -/
def catalogGet (c : Catalog) (name : String) : ItemDescriptor :=
  (List.lookup name c).getD ItemDescriptor.zero

/-- One manifest: its `Installs`, `Uninstalls` and `Updates` name lists. -/
structure ManifestItem where
  Installs : List String
  Uninstalls : List String
  Updates : List String
deriving DecidableEq, Repr

/-- One call handed to the external installer collaborator. -/
inductive InstallerCall where
  | install (item : ItemDescriptor)
  | uninstall (item : ItemDescriptor)
  | update (item : ItemDescriptor)
deriving DecidableEq, Repr

/-- One manifest's contribution in the list-compilation loop of `main`:
append each `Installs` name that is non-empty and whose catalog entry has a
non-empty `InstallerItemLocation`, and append each non-empty `Uninstalls`
and `Updates` name unconditionally. -/
def compileStep (c : Catalog) (acc : List String × List String × List String)
    (m : ManifestItem) : List String × List String × List String :=
  let ins := m.Installs.foldl
    (fun a item =>
      if item != "" && (catalogGet c item).InstallerItemLocation != "" then a ++ [item]
      else a)
    acc.1
  let uns := m.Uninstalls.foldl
    (fun a item => if item != "" then a ++ [item] else a) acc.2.1
  let ups := m.Updates.foldl
    (fun a item => if item != "" then a ++ [item] else a) acc.2.2
  (ins, uns, ups)

/-- The list-compilation loop of `main` over all manifests. -/
def compileActions (c : Catalog) (ms : List ManifestItem) :
    List String × List String × List String :=
  ms.foldl (compileStep c) ([], [], [])

/-- One iteration of the install loop of `main`: when the catalog entry
lists dependencies, call `installer.Install(catalog[dep])` for each
dependency in list order, then `installer.Install(catalog[item])` for the
item itself. -/
def installStep (c : Catalog) (acc : List InstallerCall) (item : String) : List InstallerCall :=
  let acc1 :=
    if (catalogGet c item).Dependencies.length > 0 then
      (catalogGet c item).Dependencies.foldl
        (fun a dep => a ++ [InstallerCall.install (catalogGet c dep)]) acc
    else acc
  acc1 ++ [InstallerCall.install (catalogGet c item)]

/-- The install loop of `main` over the whole install list. -/
def installCalls (c : Catalog) (installs : List String) : List InstallerCall :=
  installs.foldl (installStep c) []

/-- The calls the install loop performs for one item: its direct
dependencies in list order, then the item itself.  (When the dependency
list is empty the Go code skips the inner loop; both shapes give the same
list.) -/
def installBlock (c : Catalog) (item : String) : List InstallerCall :=
  (if (catalogGet c item).Dependencies.length > 0 then
    (catalogGet c item).Dependencies.map (fun dep => InstallerCall.install (catalogGet c dep))
  else [])
  ++ [InstallerCall.install (catalogGet c item)]

/-- The whole `main` sequence of installer calls: the install loop, then
one `Uninstall` per uninstall name, then one `Update` per update name. -/
def mainRun (c : Catalog) (ms : List ManifestItem) : List InstallerCall :=
  let acts := compileActions c ms
  installCalls c acts.1
    ++ acts.2.1.foldl (fun a item => a ++ [InstallerCall.uninstall (catalogGet c item)]) []
    ++ acts.2.2.foldl (fun a item => a ++ [InstallerCall.update (catalogGet c item)]) []

/-! ## Concrete environments used by witnesses and counterexamples -/

/-- Configuration with every feature off: no TLS auth, no token, no basic
auth. -/
def cfgPlain : Configuration :=
  { TLSAuth := false, TLSClientCert := "", TLSClientKey := "", TLSServerCert := ""
    SASToken := "", AuthUser := "", AuthPass := "" }

/-- An environment where everything succeeds: the server answers every GET
with status 200 and body `[1, 2, 3]`, and the digest oracle maps every
content to the empty digest (so the expected hash `""` always verifies). -/
def wHappy : World :=
  { loadX509KeyPair := fun _ _ => .ok ()
    readFile := fun _ => .ok [1]
    appendCertsFromPEM := fun _ => true
    newRequest := fun _ => .ok ()
    httpDo := fun _ _ => .ok { statusCode := 200, bodyRead := .ok [1, 2, 3] }
    mkdirAll := fun _ => none
    osCreate := fun _ => none
    writeResult := fun _ _ => none
    openErr := fun _ => false
    readErr := fun _ => false
    sha256 := fun _ => [] }

/-- A two-item catalog: item `A` depends on `B`, both installable. -/
def catAB : Catalog :=
  [("A", { InstallerItemLocation := "http://x/a", Dependencies := ["B"], Hash := "ha" }),
   ("B", { InstallerItemLocation := "http://x/b", Dependencies := [], Hash := "hb" })]

/-- A catalog where `a` has an empty `InstallerItemLocation` and `b` a
non-empty one; neither has dependencies. -/
def catLoc : Catalog :=
  [("a", { InstallerItemLocation := "", Dependencies := [], Hash := "" }),
   ("b", { InstallerItemLocation := "http://x/b", Dependencies := [], Hash := "" })]

/-- A single manifest listing `a`, `b` and an empty name as installs. -/
def msLoc : List ManifestItem :=
  [{ Installs := ["a", "b", ""], Uninstalls := [], Updates := [] }]

/-- A one-item catalog whose item `A` depends on the absent name `B`. -/
def catMissingDep : Catalog :=
  [("A", { InstallerItemLocation := "http://x/a", Dependencies := ["B"], Hash := "ha" })]

/-- `wHappy`, but the server answers 404 with an empty body. -/
def w404 : World :=
  { wHappy with httpDo := fun _ _ => .ok { statusCode := 404, bodyRead := .ok [] } }

/-- `wHappy`, but the connection fails (transport error from `client.Do`). -/
def wConnFail : World :=
  { wHappy with httpDo := fun _ _ => .error (.msg "connection refused") }

/-- `wHappy`, but `http.NewRequest` rejects every URL. -/
def wBadReq : World :=
  { wHappy with newRequest := fun _ => .error (.msg "parse error") }

/-- A configuration with mutual TLS enabled. -/
def cfgTLS : Configuration :=
  { cfgPlain with
    TLSAuth := true
    TLSClientCert := "/c.pem"
    TLSClientKey := "/k.pem"
    TLSServerCert := "/ca.pem" }

/-- `wHappy`, but the server CA bundle, although readable, parses to no
certificate (`AppendCertsFromPEM` returns `false`), and the server answers
200 with body `[7]`. -/
def wBadCA : World :=
  { wHappy with
    readFile := fun _ => .ok [42]
    appendCertsFromPEM := fun _ => false
    httpDo := fun _ _ => .ok { statusCode := 200, bodyRead := .ok [7] } }

/-- `wHappy`, but the client certificate/key pair fails to load. -/
def wBadPair : World :=
  { wHappy with loadX509KeyPair := fun _ _ => .error (.msg "bad pem") }

/-- `wHappy`, but `os.Create` fails on every path. -/
def wNoCreate : World :=
  { wHappy with osCreate := fun _ => some (.msg "permission denied") }

/-- `wHappy`, but every write fails after 1 byte. -/
def wBadWrite : World :=
  { wHappy with writeResult := fun _ _ => some (.msg "disk full", 1) }

/-! ## Helper lemmas -/

/-- Folding an append of one mapped element equals appending the map. -/
theorem foldl_snoc {α β : Type} (g : α → β) :
    ∀ (l : List α) (acc : List β),
      l.foldl (fun a x => a ++ [g x]) acc = acc ++ l.map g := by
  intro l
  induction l with
  | nil => intro acc; simp
  | cons x t ih => intro acc; simp [ih, List.append_assoc]

/-- Folding a guarded append equals appending the filter. -/
theorem foldl_keep (p : String → Bool) :
    ∀ (l acc : List String),
      l.foldl (fun a x => if p x then a ++ [x] else a) acc = acc ++ l.filter p := by
  intro l
  induction l with
  | nil => intro acc; simp
  | cons x t ih =>
    intro acc
    by_cases hp : p x <;> simp [List.filter_cons, hp, ih, List.append_assoc]

/-- One install-loop step appends exactly the item's block of calls. -/
theorem installStep_eq (c : Catalog) (acc : List InstallerCall) (item : String) :
    installStep c acc item = acc ++ installBlock c item := by
  unfold installStep installBlock
  by_cases h : (catalogGet c item).Dependencies.length > 0 <;>
    simp [h, foldl_snoc, List.append_assoc]

/-- The install loop is the concatenation of the per-item blocks. -/
theorem installCalls_eq (c : Catalog) (installs : List String) :
    installCalls c installs = installs.flatMap (installBlock c) := by
  suffices h : ∀ (l : List String) (acc : List InstallerCall),
      l.foldl (installStep c) acc = acc ++ l.flatMap (installBlock c) by
    simpa [installCalls] using h installs []
  intro l
  induction l with
  | nil => intro acc; simp
  | cons x t ih =>
    intro acc
    rw [List.foldl_cons, installStep_eq, ih, List.flatMap_cons, List.append_assoc]

/-- One compilation step appends the manifest's three filtered lists. -/
theorem compileStep_eq (c : Catalog) (acc : List String × List String × List String)
    (m : ManifestItem) :
    compileStep c acc m =
      (acc.1 ++ m.Installs.filter
          (fun x => x != "" && (catalogGet c x).InstallerItemLocation != ""),
       acc.2.1 ++ m.Uninstalls.filter (fun x => x != ""),
       acc.2.2 ++ m.Updates.filter (fun x => x != "")) := by
  unfold compileStep
  rw [foldl_keep (fun x => x != "" && (catalogGet c x).InstallerItemLocation != ""),
    foldl_keep (fun x => x != ""), foldl_keep (fun x => x != "")]

/-- The compilation loop builds the three flattened, filtered lists. -/
theorem compileActions_eq (c : Catalog) (ms : List ManifestItem) :
    compileActions c ms =
      (ms.flatMap (fun m => m.Installs.filter
          (fun x => x != "" && (catalogGet c x).InstallerItemLocation != "")),
       ms.flatMap (fun m => m.Uninstalls.filter (fun x => x != "")),
       ms.flatMap (fun m => m.Updates.filter (fun x => x != ""))) := by
  suffices h : ∀ (ms : List ManifestItem) (acc : List String × List String × List String),
      ms.foldl (compileStep c) acc =
        (acc.1 ++ ms.flatMap (fun m => m.Installs.filter
            (fun x => x != "" && (catalogGet c x).InstallerItemLocation != "")),
         acc.2.1 ++ ms.flatMap (fun m => m.Uninstalls.filter (fun x => x != "")),
         acc.2.2 ++ ms.flatMap (fun m => m.Updates.filter (fun x => x != ""))) by
    simpa [compileActions] using h ms ([], [], [])
  intro ms
  induction ms with
  | nil => intro acc; simp
  | cons m t ih =>
    intro acc
    rw [List.foldl_cons, ih, compileStep_eq]
    simp [List.append_assoc]

/-! ## Claim theorems -/

/-- Claim C4: for every item in the install action list whose catalog entry
has `N` dependencies, exactly `N + 1` `Install` invocations occur for that
item — one per dependency, in dependency-list order and unconditionally
(the block is a plain `map` over the dependency list: no deduplication, no
cycle detection, no installed-check), followed by `Install` of the item
itself.  The block is built only from the item's direct dependency names,
so expansion is exactly one level deep: dependencies of dependencies
contribute nothing. -/
theorem install_loop_block_shape (c : Catalog) (installs : List String) :
    installCalls c installs = installs.flatMap (fun item => installBlock c item)
    ∧ (∀ item : String,
        installBlock c item =
          (catalogGet c item).Dependencies.map
            (fun dep => InstallerCall.install (catalogGet c dep))
          ++ [InstallerCall.install (catalogGet c item)])
    ∧ (∀ item : String,
        (installBlock c item).length = (catalogGet c item).Dependencies.length + 1) := by
  have hblock : ∀ item : String,
      installBlock c item =
        (catalogGet c item).Dependencies.map
          (fun dep => InstallerCall.install (catalogGet c dep))
        ++ [InstallerCall.install (catalogGet c item)] := by
    intro item
    unfold installBlock
    by_cases h : (catalogGet c item).Dependencies.length > 0
    · simp [h]
    · have hnil : (catalogGet c item).Dependencies = [] := by
        cases hd : (catalogGet c item).Dependencies with
        | nil => rfl
        | cons a t => rw [hd] at h; simp at h
      simp [h, hnil]
  refine ⟨installCalls_eq c installs, hblock, ?_⟩
  intro item
  rw [hblock item]
  simp

/-- Witness for C4: installing `A` from `catAB` yields exactly the two
calls `Install(B)` then `Install(A)`. -/
theorem install_loop_block_shape_witness :
    installCalls catAB ["A"] =
      [InstallerCall.install
        { InstallerItemLocation := "http://x/b", Dependencies := [], Hash := "hb" },
       InstallerCall.install
        { InstallerItemLocation := "http://x/a", Dependencies := ["B"], Hash := "ha" }] := by
  rw [(install_loop_block_shape catAB ["A"]).1]
  decide

/-- Claim C5: the install action list holds only names that are non-empty
and whose catalog entry has a non-empty `InstallerItemLocation` (so an item
with an empty location never enters it, even when a manifest lists it);
empty names are filtered from all three lists; non-empty `Uninstalls` and
`Updates` names are kept unconditionally, in insertion order (the lists are
exactly the order-preserving flattened filters of the manifests). -/
theorem action_lists_filtered (c : Catalog) (ms : List ManifestItem) :
    (compileActions c ms).1 = ms.flatMap (fun m => m.Installs.filter
        (fun x => x != "" && (catalogGet c x).InstallerItemLocation != ""))
    ∧ (compileActions c ms).2.1 = ms.flatMap (fun m => m.Uninstalls.filter (fun x => x != ""))
    ∧ (compileActions c ms).2.2 = ms.flatMap (fun m => m.Updates.filter (fun x => x != ""))
    ∧ (∀ x ∈ (compileActions c ms).1,
        x ≠ "" ∧ (catalogGet c x).InstallerItemLocation ≠ "") := by
  rw [compileActions_eq]
  refine ⟨rfl, rfl, rfl, ?_⟩
  intro x hx
  simp only [List.mem_flatMap, List.mem_filter] at hx
  obtain ⟨m, _, _, hp⟩ := hx
  simpa [bne_iff_ne] using hp

/-- Witness for C5 at a concrete catalog and manifest: `b` survives into
the install list and the theorem yields its non-empty location; the
evaluation also shows `a` (empty location) and `""` were dropped. -/
theorem action_lists_filtered_witness :
    (compileActions catLoc msLoc).1 = ["b"]
    ∧ ("b" ≠ "" ∧ (catalogGet catLoc "b").InstallerItemLocation ≠ "") := by
  refine ⟨by decide, ?_⟩
  exact (action_lists_filtered catLoc msLoc).2.2.2 "b" (by decide)

/-- Claim C9: dependency names are never filtered: for every item of the
install list, an `Install` call is made for each listed dependency name,
and a name absent from the catalog yields the zero-value descriptor
(`ItemDescriptor.zero`), so `Install` is still invoked, on the empty
descriptor. -/
theorem deps_never_filtered (c : Catalog) (installs : List String) (item dep : String)
    (hitem : item ∈ installs) (hdep : dep ∈ (catalogGet c item).Dependencies) :
    InstallerCall.install (catalogGet c dep) ∈ installCalls c installs
    ∧ (List.lookup dep c = none → catalogGet c dep = ItemDescriptor.zero) := by
  constructor
  · rw [installCalls_eq]
    refine List.mem_flatMap.mpr ⟨item, hitem, ?_⟩
    unfold installBlock
    have hlen : (catalogGet c item).Dependencies.length > 0 :=
      List.length_pos.mpr (List.ne_nil_of_mem hdep)
    rw [if_pos hlen]
    exact List.mem_append_left _ (List.mem_map_of_mem _ hdep)
  · intro h
    simp [catalogGet, h]

/-- Witness for C9: item `A` of `catMissingDep` lists the absent dependency
`B`; the install loop still emits `Install` of the zero-value descriptor. -/
theorem deps_never_filtered_witness :
    InstallerCall.install ItemDescriptor.zero ∈ installCalls catMissingDep ["A"] := by
  have h := deps_never_filtered catMissingDep ["A"] "A" "B" (by decide) (by decide)
  have hz : catalogGet catMissingDep "B" = ItemDescriptor.zero := h.2 (by decide)
  rw [← hz]
  exact h.1

/-- Hex digits are untouched by ASCII lowering. -/
theorem asciiCharToLower_hexDigitChar (n : Nat) (h : n < 16) :
    asciiCharToLower (hexDigitChar n) = hexDigitChar n := by
  interval_cases n <;> decide

/-- The hex encoding of a digest is already lower case. -/
theorem asciiToLower_hexEncode (bs : List Nat) :
    asciiToLower (hexEncodeToString bs) = hexEncodeToString bs := by
  unfold asciiToLower hexEncodeToString
  have h : (hexEncodeBytes bs).map asciiCharToLower = hexEncodeBytes bs := by
    have hall : ∀ c ∈ hexEncodeBytes bs, asciiCharToLower c = c := by
      intro c hc
      unfold hexEncodeBytes at hc
      obtain ⟨b, _, hmem⟩ := List.mem_flatMap.mp hc
      have h16a : b % 256 / 16 < 16 := by omega
      have h16b : b % 256 % 16 < 16 := by omega
      simp only [List.mem_cons, List.not_mem_nil, or_false] at hmem
      rcases hmem with h1 | h1
      · exact h1 ▸ asciiCharToLower_hexDigitChar _ h16a
      · exact h1 ▸ asciiCharToLower_hexDigitChar _ h16b
    calc (hexEncodeBytes bs).map asciiCharToLower
        = (hexEncodeBytes bs).map id := List.map_congr_left hall
      _ = hexEncodeBytes bs := List.map_id _
  rw [h]

/-- Claim C6: `Verify(path, expectedHex)` returns `true` exactly when a
file exists at `path`, opening and streaming it succeed, and the hex-encoded
SHA-256 digest of its content equals `expectedHex` case-insensitively
(equal after ASCII lowering of both sides — the code compares the
lower-case hex encoding against `strings.ToLower(expectedHex)`).  The
return type is `Bool`: every open/read error is logged, collapsed to
`false`, and never propagated. -/
theorem verify_true_iff (w : World) (fs : FS) (file sha : String) :
    Verify w fs file sha = true ↔
      ∃ content, fsLookup fs file = some content
        ∧ w.openErr file = false
        ∧ w.readErr file = false
        ∧ asciiToLower (hexEncodeToString (w.sha256 content)) = asciiToLower sha := by
  unfold Verify
  cases hlk : fsLookup fs file with
  | none => simp
  | some content =>
    cases ho : w.openErr file <;> cases hr : w.readErr file <;>
      by_cases he : hexEncodeToString (w.sha256 content) = asciiToLower sha <;>
      simp [ho, hr, he, asciiToLower_hexEncode]

/-- Witness for C6: a present, readable file whose digest hex-encodes to
the empty string verifies against the expected hash `""`. -/
theorem verify_true_iff_witness :
    Verify wHappy [("/d/a.pkg", [5])] "/d/a.pkg" "" = true := by
  rw [verify_true_iff]
  exact ⟨[5], rfl, rfl, rfl, rfl⟩

/-- Claim C1: when a response arrives (client construction, request
construction and the request itself succeed) and its body stream is
readable, `Get` returns the body successfully exactly when the status code
is 200; for every other status it returns the error naming the requested
URL and the numeric status, and — the result being an error — no body. -/
theorem get_success_iff_status200 (cfg : Configuration) (w : World) (url : String)
    (resp : HttpResponse) (body : List Nat)
    (hTLS : tlsSetup cfg w = .ok ())
    (hReq : w.newRequest (urlWithToken cfg url) = .ok ())
    (hDo : w.httpDo (urlWithToken cfg url) (basicAuth cfg) = .ok resp)
    (hBody : resp.bodyRead = .ok body) :
    ((Get cfg w url).1 = .ok body ↔ resp.statusCode = 200)
    ∧ (resp.statusCode ≠ 200 →
        (Get cfg w url).1 = .err (.statusCode (urlWithToken cfg url) resp.statusCode)) := by
  by_cases hs : resp.statusCode = 200 <;>
    simp [Get, getRequest, hTLS, hReq, hDo, hBody, hs]

/-- Witness for C1: a 200 response returns its body `[1, 2, 3]`; a 404
response returns the error naming the URL and the code 404. -/
theorem get_success_iff_status200_witness :
    (Get cfgPlain wHappy "http://x/a").1 = .ok [1, 2, 3]
    ∧ (Get cfgPlain w404 "http://x/a").1 = .err (.statusCode "http://x/a" 404) := by
  constructor
  · exact (get_success_iff_status200 cfgPlain wHappy "http://x/a"
      { statusCode := 200, bodyRead := .ok [1, 2, 3] } [1, 2, 3] rfl rfl rfl rfl).1.mpr rfl
  · exact (get_success_iff_status200 cfgPlain w404 "http://x/a"
      { statusCode := 404, bodyRead := .ok [] } [] rfl rfl rfl rfl).2 (by decide)

/-- Amended claim C3: with mutual TLS enabled, `Get` fails with the
propagated configuration error and performs no network I/O (the trace holds
no `httpDo` event) whenever the client certificate/key pair cannot be read
or parsed, or whenever the server CA bundle cannot be read.  An unreadable
CA bundle aborts in the same way; but once the bundle is readable the
request phase proceeds no matter what `AppendCertsFromPEM` made of it,
because the code discards that Boolean — see
`tls_unparseable_ca_not_detected` for the violation of the original
claim. -/
theorem tls_errors_abort_fetch (cfg : Configuration) (w : World) (url : String)
    (hTLS : cfg.TLSAuth = true) :
    (∀ e, w.loadX509KeyPair cfg.TLSClientCert cfg.TLSClientKey = .error e →
      Get cfg w url = (.err e, [.getCall url]))
    ∧ (∀ e, w.loadX509KeyPair cfg.TLSClientCert cfg.TLSClientKey = .ok () →
        w.readFile cfg.TLSServerCert = .error e →
        Get cfg w url = (.err e, [.getCall url]))
    ∧ (w.loadX509KeyPair cfg.TLSClientCert cfg.TLSClientKey = .ok () →
        ∀ ca, w.readFile cfg.TLSServerCert = .ok ca →
        Get cfg w url = getRequest cfg w url) := by
  refine ⟨fun e h1 => ?_, fun e h1 h2 => ?_, fun h1 ca h2 => ?_⟩
  · simp [Get, tlsSetup, hTLS, h1]
  · simp [Get, tlsSetup, hTLS, h1, h2]
  · simp [Get, tlsSetup, hTLS, h1, h2]

/-- Counterexample to claim C3 as stated: in `wBadCA` the server CA bundle
is readable but unparseable (`AppendCertsFromPEM` yields `false` on its
content `[42]`), yet `Get` does not fail before network I/O — it performs
the request (an `httpDo` event occurs) and returns the body. -/
theorem tls_unparseable_ca_not_detected :
    wBadCA.appendCertsFromPEM [42] = false
    ∧ (wBadCA.readFile cfgTLS.TLSServerCert).toOption = some [42]
    ∧ cfgTLS.TLSAuth = true
    ∧ (Get cfgTLS wBadCA "https://x/a").1 = .ok [7]
    ∧ Event.httpDo "https://x/a" ∈ (Get cfgTLS wBadCA "https://x/a").2 := by
  decide

/-- Witness for the amended C3: an unloadable client key pair aborts `Get`
with that very error and an I/O-free trace. -/
theorem tls_errors_abort_fetch_witness :
    Get cfgTLS wBadPair "https://x/a" = (.err (.msg "bad pem"), [.getCall "https://x/a"]) :=
  (tls_errors_abort_fetch cfgTLS wBadPair "https://x/a" rfl).1 (.msg "bad pem") rfl

/-- Claim C10: when `http.NewRequest` fails, `Get` does not return that
error — nor any error: the failure is only logged and execution continues
holding the nil `*http.Request`, whose first use dereferences the nil
pointer and panics (`req.SetBasicAuth` when basic auth is configured,
otherwise `client.Do`, which has no nil-request guard and reads `req.URL`
immediately).  The construction error is never propagated and no network
I/O happens. -/
theorem get_continues_after_request_error (cfg : Configuration) (w : World) (url : String)
    (e : GoError)
    (hTLS : tlsSetup cfg w = .ok ())
    (hReq : w.newRequest (urlWithToken cfg url) = .error e) :
    Get cfg w url = (.panic, [.getCall url])
    ∧ ∀ e2, (Get cfg w url).1 ≠ .err e2 := by
  constructor
  · simp [Get, getRequest, hTLS, hReq]
  · intro e2
    simp [Get, getRequest, hTLS, hReq]

/-- Witness for C10: with a request builder that rejects the URL, `Get`
neither returns the construction error `msg "parse error"` nor any other
error: execution continues into the nil-request dereference and panics,
with no network I/O in the trace. -/
theorem get_continues_after_request_error_witness :
    Get cfgPlain wBadReq "http://x/%" = (.panic, [.getCall "http://x/%"]) :=
  (get_continues_after_request_error cfgPlain wBadReq "http://x/%" (.msg "parse error")
    rfl rfl).1

/-- `File` when `os.Create` fails: the error is returned, the filesystem is
untouched, `Get` is never entered. -/
theorem File_create_err (cfg : Configuration) (w : World) (fs : FS) (dir url : String)
    (e : GoError)
    (hc : w.osCreate (filepathClean (filepathJoin dir (pathSplitFile url))) = some e) :
    File cfg w fs dir url =
      { res := .err e, fs := fs
        trace := [.fileCall dir url,
          .mkdirAll (filepathClean dir) 0o755 (w.mkdirAll (filepathClean dir)),
          .createFile (filepathClean (filepathJoin dir (pathSplitFile url)))] } := by
  simp [File, hc]

/-- `File` when `Get` fails: the error is returned and the truncated empty
file stays behind. -/
theorem File_get_err (cfg : Configuration) (w : World) (fs : FS) (dir url : String)
    (e : GoError) (ev : List Event)
    (hc : w.osCreate (filepathClean (filepathJoin dir (pathSplitFile url))) = none)
    (hG : Get cfg w url = (.err e, ev)) :
    File cfg w fs dir url =
      { res := .err e
        fs := fsSet fs (filepathClean (filepathJoin dir (pathSplitFile url))) []
        trace := [.fileCall dir url,
          .mkdirAll (filepathClean dir) 0o755 (w.mkdirAll (filepathClean dir)),
          .createFile (filepathClean (filepathJoin dir (pathSplitFile url)))] ++ ev } := by
  simp [File, hc, hG]

/-- `File` when `Get` panics: the panic propagates, the truncated empty
file stays behind. -/
theorem File_get_panic (cfg : Configuration) (w : World) (fs : FS) (dir url : String)
    (ev : List Event)
    (hc : w.osCreate (filepathClean (filepathJoin dir (pathSplitFile url))) = none)
    (hG : Get cfg w url = (.panic, ev)) :
    File cfg w fs dir url =
      { res := .panic
        fs := fsSet fs (filepathClean (filepathJoin dir (pathSplitFile url))) []
        trace := [.fileCall dir url,
          .mkdirAll (filepathClean dir) 0o755 (w.mkdirAll (filepathClean dir)),
          .createFile (filepathClean (filepathJoin dir (pathSplitFile url)))] ++ ev } := by
  simp [File, hc, hG]

/-- `File` when everything succeeds: the body is written to the target. -/
theorem File_write_ok (cfg : Configuration) (w : World) (fs : FS) (dir url : String)
    (body : List Nat) (ev : List Event)
    (hc : w.osCreate (filepathClean (filepathJoin dir (pathSplitFile url))) = none)
    (hG : Get cfg w url = (.ok body, ev))
    (hw : w.writeResult (filepathClean (filepathJoin dir (pathSplitFile url))) body
      = none) :
    File cfg w fs dir url =
      { res := .ok ()
        fs := fsSet (fsSet fs (filepathClean (filepathJoin dir (pathSplitFile url))) [])
          (filepathClean (filepathJoin dir (pathSplitFile url))) body
        trace := [.fileCall dir url,
          .mkdirAll (filepathClean dir) 0o755 (w.mkdirAll (filepathClean dir)),
          .createFile (filepathClean (filepathJoin dir (pathSplitFile url)))] ++ ev
          ++ [.fileWrite (filepathClean (filepathJoin dir (pathSplitFile url)))] } := by
  simp [File, hc, hG, hw]

/-- `File` when the write fails after `n` bytes: the error is returned and
the partial prefix stays behind. -/
theorem File_write_err (cfg : Configuration) (w : World) (fs : FS) (dir url : String)
    (body : List Nat) (ev : List Event) (e : GoError) (n : Nat)
    (hc : w.osCreate (filepathClean (filepathJoin dir (pathSplitFile url))) = none)
    (hG : Get cfg w url = (.ok body, ev))
    (hw : w.writeResult (filepathClean (filepathJoin dir (pathSplitFile url))) body
      = some (e, n)) :
    File cfg w fs dir url =
      { res := .err e
        fs := fsSet (fsSet fs (filepathClean (filepathJoin dir (pathSplitFile url))) [])
          (filepathClean (filepathJoin dir (pathSplitFile url))) (body.take n)
        trace := [.fileCall dir url,
          .mkdirAll (filepathClean dir) 0o755 (w.mkdirAll (filepathClean dir)),
          .createFile (filepathClean (filepathJoin dir (pathSplitFile url)))] ++ ev
          ++ [.fileWrite (filepathClean (filepathJoin dir (pathSplitFile url)))] } := by
  simp [File, hc, hG, hw]

/-- Event counters distribute over concatenation. -/
theorem countFileCalls_append (a b : List Event) :
    countFileCalls (a ++ b) = countFileCalls a + countFileCalls b := by
  simp [countFileCalls, List.countP_append]

/-- Event counters distribute over concatenation. -/
theorem countGetCalls_append (a b : List Event) :
    countGetCalls (a ++ b) = countGetCalls a + countGetCalls b := by
  simp [countGetCalls, List.countP_append]

/-- Event counters distribute over concatenation. -/
theorem countHttpDo_append (a b : List Event) :
    countHttpDo (a ++ b) = countHttpDo a + countHttpDo b := by
  simp [countHttpDo, List.countP_append]

/-- The three-event prefix of every `File` trace holds one `fileCall`. -/
theorem countFileCalls_pre (d u cd : String) (p : Nat) (r : Option GoError) (t : String) :
    countFileCalls [Event.fileCall d u, Event.mkdirAll cd p r, Event.createFile t] = 1 := rfl

/-- The three-event prefix of every `File` trace holds no `getCall`. -/
theorem countGetCalls_pre (d u cd : String) (p : Nat) (r : Option GoError) (t : String) :
    countGetCalls [Event.fileCall d u, Event.mkdirAll cd p r, Event.createFile t] = 0 := rfl

/-- The three-event prefix of every `File` trace holds no `httpDo`. -/
theorem countHttpDo_pre (d u cd : String) (p : Nat) (r : Option GoError) (t : String) :
    countHttpDo [Event.fileCall d u, Event.mkdirAll cd p r, Event.createFile t] = 0 := rfl

/-- A write event counts for none of the three counters. -/
theorem counters_fileWrite (t : String) :
    countFileCalls [Event.fileWrite t] = 0
    ∧ countGetCalls [Event.fileWrite t] = 0
    ∧ countHttpDo [Event.fileWrite t] = 0 := ⟨rfl, rfl, rfl⟩

/-- `Get` never enters `File`, enters itself exactly once, and performs at
most one network request. -/
theorem get_trace_counts (cfg : Configuration) (w : World) (url : String) :
    countFileCalls (Get cfg w url).2 = 0
    ∧ countGetCalls (Get cfg w url).2 = 1
    ∧ countHttpDo (Get cfg w url).2 ≤ 1 := by
  simp only [Get, getRequest]
  repeat' split
  all_goals simp [countFileCalls, countGetCalls, countHttpDo]

/-- `File` enters itself exactly once, enters `Get` at most once (not at
all when `os.Create` fails), and performs at most one network request. -/
theorem file_trace_counts (cfg : Configuration) (w : World) (fs : FS) (dir url : String) :
    countFileCalls (File cfg w fs dir url).trace = 1
    ∧ countGetCalls (File cfg w fs dir url).trace ≤ 1
    ∧ countHttpDo (File cfg w fs dir url).trace ≤ 1 := by
  obtain ⟨hg1, hg2, hg3⟩ := get_trace_counts cfg w url
  cases hc : w.osCreate (filepathClean (filepathJoin dir (pathSplitFile url))) with
  | some e =>
    rw [File_create_err cfg w fs dir url e hc]
    exact ⟨rfl, by simp [countGetCalls_pre], by simp [countHttpDo_pre]⟩
  | none =>
    rcases hG : Get cfg w url with ⟨gres, gev⟩
    rw [hG] at hg1 hg2 hg3
    cases gres with
    | ok body =>
      cases hw : w.writeResult (filepathClean (filepathJoin dir (pathSplitFile url)))
          body with
      | none =>
        rw [File_write_ok cfg w fs dir url body gev hc hG hw]
        refine ⟨?_, ?_, ?_⟩ <;>
          · simp [countFileCalls, countGetCalls, countHttpDo, List.countP_cons,
              List.countP_append] at hg1 hg2 hg3 ⊢
            first
            | assumption
            | exact hg2.le
      | some p =>
        obtain ⟨e, n⟩ := p
        rw [File_write_err cfg w fs dir url body gev e n hc hG hw]
        refine ⟨?_, ?_, ?_⟩ <;>
          · simp [countFileCalls, countGetCalls, countHttpDo, List.countP_cons,
              List.countP_append] at hg1 hg2 hg3 ⊢
            first
            | assumption
            | exact hg2.le
    | err e =>
      rw [File_get_err cfg w fs dir url e gev hc hG]
      refine ⟨?_, ?_, ?_⟩ <;>
        · simp [countFileCalls, countGetCalls, countHttpDo, List.countP_cons,
            List.countP_append] at hg1 hg2 hg3 ⊢
          first
          | assumption
          | exact hg2.le
    | panic =>
      rw [File_get_panic cfg w fs dir url gev hc hG]
      refine ⟨?_, ?_, ?_⟩ <;>
        · simp [countFileCalls, countGetCalls, countHttpDo, List.countP_cons,
            List.countP_append] at hg1 hg2 hg3 ⊢
          first
          | assumption
          | exact hg2.le

/-- Claim C2: `IfNeeded` performs at most one fetch.  When the file exists
and verifies, nothing at all happens (empty trace) and the result is
`true`.  Otherwise exactly one `File` call is made, within it `Get` is
entered at most once and at most one network request occurs — never a
second fetch — and when that `File` call fails the function immediately
returns the (necessarily false) `verified` flag. -/
theorem ifneeded_single_fetch (cfg : Configuration) (w : World) (fs : FS)
    (absFile url hash : String) :
    ((statOk fs absFile = true ∧ Verify w fs absFile hash = true) →
      (IfNeeded cfg w fs absFile url hash).trace = []
      ∧ (IfNeeded cfg w fs absFile url hash).res = .ok true)
    ∧ (¬(statOk fs absFile = true ∧ Verify w fs absFile hash = true) →
      countFileCalls (IfNeeded cfg w fs absFile url hash).trace = 1
      ∧ countGetCalls (IfNeeded cfg w fs absFile url hash).trace ≤ 1
      ∧ countHttpDo (IfNeeded cfg w fs absFile url hash).trace ≤ 1)
    ∧ (∀ e, ¬(statOk fs absFile = true ∧ Verify w fs absFile hash = true) →
      (File cfg w fs (filepathSplitDir absFile) url).res = .err e →
      (IfNeeded cfg w fs absFile url hash).res = .ok false) := by
  have hvf : ¬(statOk fs absFile = true ∧ Verify w fs absFile hash = true) →
      (if statOk fs absFile then Verify w fs absFile hash else false) = false := by
    intro hn
    cases hs : statOk fs absFile with
    | false => simp
    | true =>
      cases hvv : Verify w fs absFile hash with
      | false => simp
      | true => exact absurd ⟨hs, hvv⟩ hn
  refine ⟨?_, ?_, ?_⟩
  · rintro ⟨h1, h2⟩
    simp [IfNeeded, h1, h2]
  · intro hn
    have hfc := file_trace_counts cfg w fs (filepathSplitDir absFile) url
    rcases hF : File cfg w fs (filepathSplitDir absFile) url with ⟨fres, ffs, ftr⟩
    rw [hF] at hfc
    simp only [] at hfc
    cases fres <;> simp [IfNeeded, hvf hn, hF] <;> simpa using hfc
  · intro e hn hFe
    simp [IfNeeded, hvf hn, hFe]

/-- Witness for C2: with a failing connection and no local file, one
`File` call occurs and the result is `false`; with a pre-existing verified
file the trace is empty. -/
theorem ifneeded_single_fetch_witness :
    countFileCalls (IfNeeded cfgPlain wConnFail [] "/d/a.pkg" "http://x/a.pkg" "ab").trace = 1
    ∧ (IfNeeded cfgPlain wConnFail [] "/d/a.pkg" "http://x/a.pkg" "ab").res = .ok false
    ∧ (IfNeeded cfgPlain wHappy [("/d/a.pkg", [5])] "/d/a.pkg" "http://x/a.pkg" "").trace
        = [] := by
  refine ⟨?_, ?_, ?_⟩
  · exact ((ifneeded_single_fetch cfgPlain wConnFail [] "/d/a.pkg" "http://x/a.pkg"
      "ab").2.1 (by decide)).1
  · exact (ifneeded_single_fetch cfgPlain wConnFail [] "/d/a.pkg" "http://x/a.pkg"
      "ab").2.2 (.msg "connection refused") (by decide) (by decide)
  · exact ((ifneeded_single_fetch cfgPlain wHappy [("/d/a.pkg", [5])] "/d/a.pkg"
      "http://x/a.pkg" "").1 ⟨by decide, by decide⟩).1

/-- Claim C7: `File` derives the destination as the URL's final path
segment joined to the directory, and proceeds in order: `MkdirAll` on the
cleaned directory (recorded with mode 0o755; its error is only logged —
last conjunct: the result and the filesystem never depend on the `mkdirAll`
oracle), then `os.Create` (failure propagated, before any `Get` entry),
then `Get` (failure propagated, the truncated empty file left behind),
then the write (failure propagated, the partial prefix left behind).  No
case removes the created file: there is no cleanup. -/
theorem file_order_and_propagation (cfg : Configuration) (w : World) (fs : FS)
    (dir url : String) :
    (∀ e, w.osCreate (filepathClean (filepathJoin dir (pathSplitFile url))) = some e →
      File cfg w fs dir url =
        { res := .err e, fs := fs
          trace := [.fileCall dir url,
            .mkdirAll (filepathClean dir) 0o755 (w.mkdirAll (filepathClean dir)),
            .createFile (filepathClean (filepathJoin dir (pathSplitFile url)))] })
    ∧ (∀ e ev, w.osCreate (filepathClean (filepathJoin dir (pathSplitFile url))) = none →
        Get cfg w url = (.err e, ev) →
        File cfg w fs dir url =
          { res := .err e
            fs := fsSet fs (filepathClean (filepathJoin dir (pathSplitFile url))) []
            trace := [.fileCall dir url,
              .mkdirAll (filepathClean dir) 0o755 (w.mkdirAll (filepathClean dir)),
              .createFile (filepathClean (filepathJoin dir (pathSplitFile url)))] ++ ev })
    ∧ (∀ body ev, w.osCreate (filepathClean (filepathJoin dir (pathSplitFile url))) = none →
        Get cfg w url = (.ok body, ev) →
        w.writeResult (filepathClean (filepathJoin dir (pathSplitFile url))) body = none →
        File cfg w fs dir url =
          { res := .ok ()
            fs := fsSet (fsSet fs (filepathClean (filepathJoin dir (pathSplitFile url))) [])
              (filepathClean (filepathJoin dir (pathSplitFile url))) body
            trace := [.fileCall dir url,
              .mkdirAll (filepathClean dir) 0o755 (w.mkdirAll (filepathClean dir)),
              .createFile (filepathClean (filepathJoin dir (pathSplitFile url)))] ++ ev
              ++ [.fileWrite (filepathClean (filepathJoin dir (pathSplitFile url)))] })
    ∧ (∀ body ev e n,
        w.osCreate (filepathClean (filepathJoin dir (pathSplitFile url))) = none →
        Get cfg w url = (.ok body, ev) →
        w.writeResult (filepathClean (filepathJoin dir (pathSplitFile url))) body
          = some (e, n) →
        File cfg w fs dir url =
          { res := .err e
            fs := fsSet (fsSet fs (filepathClean (filepathJoin dir (pathSplitFile url))) [])
              (filepathClean (filepathJoin dir (pathSplitFile url))) (body.take n)
            trace := [.fileCall dir url,
              .mkdirAll (filepathClean dir) 0o755 (w.mkdirAll (filepathClean dir)),
              .createFile (filepathClean (filepathJoin dir (pathSplitFile url)))] ++ ev
              ++ [.fileWrite (filepathClean (filepathJoin dir (pathSplitFile url)))] })
    ∧ (∀ g : String → Option GoError,
        (File cfg { w with mkdirAll := g } fs dir url).res = (File cfg w fs dir url).res
        ∧ (File cfg { w with mkdirAll := g } fs dir url).fs = (File cfg w fs dir url).fs) := by
  refine ⟨File_create_err cfg w fs dir url, ?_, ?_, ?_, ?_⟩
  · intro e ev hc hG
    exact File_get_err cfg w fs dir url e ev hc hG
  · intro body ev hc hG hw
    exact File_write_ok cfg w fs dir url body ev hc hG hw
  · intro body ev e n hc hG hw
    exact File_write_err cfg w fs dir url body ev e n hc hG hw
  · intro g
    have hG2 : Get cfg { w with mkdirAll := g } url = Get cfg w url := rfl
    cases hc : w.osCreate (filepathClean (filepathJoin dir (pathSplitFile url))) with
    | some e =>
      rw [File_create_err cfg { w with mkdirAll := g } fs dir url e hc,
        File_create_err cfg w fs dir url e hc]
      exact ⟨rfl, rfl⟩
    | none =>
      rcases hG : Get cfg w url with ⟨gres, gev⟩
      cases gres with
      | ok body =>
        cases hw : w.writeResult (filepathClean (filepathJoin dir (pathSplitFile url)))
            body with
        | none =>
          rw [File_write_ok cfg { w with mkdirAll := g } fs dir url body gev hc
              (hG2.trans hG) hw,
            File_write_ok cfg w fs dir url body gev hc hG hw]
          exact ⟨rfl, rfl⟩
        | some p =>
          obtain ⟨e, n⟩ := p
          rw [File_write_err cfg { w with mkdirAll := g } fs dir url body gev e n hc
              (hG2.trans hG) hw,
            File_write_err cfg w fs dir url body gev e n hc hG hw]
          exact ⟨rfl, rfl⟩
      | err e =>
        rw [File_get_err cfg { w with mkdirAll := g } fs dir url e gev hc (hG2.trans hG),
          File_get_err cfg w fs dir url e gev hc hG]
        exact ⟨rfl, rfl⟩
      | panic =>
        rw [File_get_panic cfg { w with mkdirAll := g } fs dir url gev hc (hG2.trans hG),
          File_get_panic cfg w fs dir url gev hc hG]
        exact ⟨rfl, rfl⟩

/-- Witness for C7: with every write failing after one byte, `File`
propagates the write error and leaves the one-byte truncated file
`/d/a.pkg` on disk (no cleanup). -/
theorem file_order_and_propagation_witness :
    (File cfgPlain wBadWrite [] "/d/" "http://x/a.pkg").res = .err (.msg "disk full")
    ∧ fsLookup (File cfgPlain wBadWrite [] "/d/" "http://x/a.pkg").fs "/d/a.pkg"
        = some [1] := by
  have h := (file_order_and_propagation cfgPlain wBadWrite [] "/d/" "http://x/a.pkg").2.2.2.1
    [1, 2, 3] [.getCall "http://x/a.pkg", .httpDo "http://x/a.pkg"] (.msg "disk full") 1
    (by decide) (by decide) (by decide)
  rw [h]
  exact ⟨rfl, by decide⟩

/-- `Verify` reads the filesystem only at `file`. -/
theorem verify_congr (w : World) (fs1 fs2 : FS) (file sha : String)
    (h : fsLookup fs1 file = fsLookup fs2 file) :
    Verify w fs1 file sha = Verify w fs2 file sha := by
  unfold Verify
  rw [h]

/-- Reading through a write: the written path shadows, others unchanged. -/
theorem fsLookup_fsSet (fs : FS) (p q : String) (v : List Nat) :
    fsLookup (fsSet fs p v) q = if p = q then some v else fsLookup fs q := rfl

/-- `File`'s result does not depend on the starting filesystem, and its
effect on the content at any path `a` is a function of the old content at
`a`. -/
theorem file_congr (cfg : Configuration) (w : World) (fs1 fs2 : FS) (dir url a : String)
    (h : fsLookup fs1 a = fsLookup fs2 a) :
    (File cfg w fs1 dir url).res = (File cfg w fs2 dir url).res
    ∧ fsLookup (File cfg w fs1 dir url).fs a = fsLookup (File cfg w fs2 dir url).fs a := by
  cases hc : w.osCreate (filepathClean (filepathJoin dir (pathSplitFile url))) with
  | some e =>
    rw [File_create_err cfg w fs1 dir url e hc, File_create_err cfg w fs2 dir url e hc]
    exact ⟨rfl, h⟩
  | none =>
    rcases hG : Get cfg w url with ⟨gres, gev⟩
    cases gres with
    | ok body =>
      cases hw : w.writeResult (filepathClean (filepathJoin dir (pathSplitFile url)))
          body with
      | none =>
        rw [File_write_ok cfg w fs1 dir url body gev hc hG hw,
          File_write_ok cfg w fs2 dir url body gev hc hG hw]
        exact ⟨rfl, by simp [fsLookup_fsSet, h]⟩
      | some p =>
        obtain ⟨e, n⟩ := p
        rw [File_write_err cfg w fs1 dir url body gev e n hc hG hw,
          File_write_err cfg w fs2 dir url body gev e n hc hG hw]
        exact ⟨rfl, by simp [fsLookup_fsSet, h]⟩
    | err e =>
      rw [File_get_err cfg w fs1 dir url e gev hc hG,
        File_get_err cfg w fs2 dir url e gev hc hG]
      exact ⟨rfl, by simp [fsLookup_fsSet, h]⟩
    | panic =>
      rw [File_get_panic cfg w fs1 dir url gev hc hG,
        File_get_panic cfg w fs2 dir url gev hc hG]
      exact ⟨rfl, by simp [fsLookup_fsSet, h]⟩

/-- Claim C8: the Cache Gate decision is a pure function of the file
content at `absFile` and the expected digest: two `IfNeeded` runs in the
same environment (hence identical fetch outcomes and digest function) whose
filesystems agree at `absFile` — regardless of anything else they contain —
return the same result.  The model carries no timestamps, ETags or version
markers, and this theorem shows no other filesystem state participates
either. -/
theorem cache_gate_pure (cfg : Configuration) (w : World) (fs1 fs2 : FS)
    (absFile url hash : String)
    (h : fsLookup fs1 absFile = fsLookup fs2 absFile) :
    (IfNeeded cfg w fs1 absFile url hash).res = (IfNeeded cfg w fs2 absFile url hash).res := by
  have hst : statOk fs1 absFile = statOk fs2 absFile := by
    unfold statOk
    rw [h]
  have hv : Verify w fs1 absFile hash = Verify w fs2 absFile hash :=
    verify_congr w fs1 fs2 absFile hash h
  have hf := file_congr cfg w fs1 fs2 (filepathSplitDir absFile) url absFile h
  simp only [IfNeeded, hst, hv, hf.1]
  cases hcond : (if statOk fs2 absFile then Verify w fs2 absFile hash else false) with
  | true => rfl
  | false =>
    cases hr : (File cfg w fs2 (filepathSplitDir absFile) url).res with
    | ok u => simpa using verify_congr w _ _ absFile hash hf.2
    | err e => rfl
    | panic => rfl

/-- Witness for C8: adding an unrelated file to the filesystem does not
change the decision. -/
theorem cache_gate_pure_witness :
    (IfNeeded cfgPlain wHappy [("/d/a.pkg", [5])] "/d/a.pkg" "http://x/a.pkg" "z").res
      = (IfNeeded cfgPlain wHappy [("/other", [9]), ("/d/a.pkg", [5])] "/d/a.pkg"
          "http://x/a.pkg" "z").res :=
  cache_gate_pure cfgPlain wHappy [("/d/a.pkg", [5])] [("/other", [9]), ("/d/a.pkg", [5])]
    "/d/a.pkg" "http://x/a.pkg" "z" (by decide)

end Gorilla
